import Mathlib

/-!
Verification of the OpenPointClassBathy point-cloud codec and density
estimator (src/point_io.hpp, src/point_io.cpp) against its specification.

Modelling conventions:
* A 32-bit float is modelled as its opaque 4-byte little-endian
  representation (structure F32): the native codec only ever copies float
  bytes verbatim, so no arithmetic on float values is needed.
* Byte values and 8-bit columns are modelled as Nat; the C++ casts that
  narrow to uint8_t are modelled with explicit mod 256 where they occur.
* std::ifstream binary reads are modelled by IStream: a byte list plus the
  failbit.  A read past the end copies the available bytes, leaves the
  rest of the destination buffer unchanged, and sets the failbit; once the
  failbit is set subsequent reads do nothing, exactly as for std::istream.
* C++ exceptions (std::runtime_error from the code, std::invalid_argument
  and std::out_of_range from std::stoi and std::string::substr) and
  out-of-bounds element accesses (undefined behaviour in C++) appear as an
  Except error so that the embedding is total.
* double arithmetic in PointSet::spacing is idealised over the rationals;
  the facts proved about it (the 0.01 floor, the caching) are insensitive
  to the rounding of binary floating point.
-/

deriving instance DecidableEq for Except

namespace OPC

/-- Error outcomes of the embedded operations.  runtimeError carries the
message of the std::runtime_error thrown by the source; stoiInvalid and
stoiRange are std::invalid_argument / std::out_of_range from std::stoi;
substrRange is std::out_of_range from std::string::substr; oobRead and
oobWrite mark out-of-bounds element accesses (undefined behaviour in the
C++ source, surfaced as explicit errors by this total embedding);
asciiBody marks the ascii record-decoding branch, which parses decimal
float text and therefore has no counterpart under the byte-opaque float
model (every file exercised by the claims is binary, as is every file the
writer produces). -/
inductive Err where
  | runtimeError (msg : String)
  | stoiInvalid
  | stoiRange
  | substrRange
  | oobRead
  | oobWrite
  | asciiBody
deriving DecidableEq

/-- Vector element access pSet.xs[idx]: in C++ an out-of-range index is
undefined behaviour; the total embedding returns an explicit error. -/
def vecGet (l : List α) (i : ℕ) : Except Err α :=
  match l.get? i with
  | some a => .ok a
  | none => .error .oobRead

/-- line.erase(std::remove(line.begin(), line.end(), carriage-return)):
removes every carriage-return character from the line. -/
def stripCR (l : List Char) : List Char :=
  l.filter (fun c => c != '\r')

/-- line.find(p) == 0, i.e. the line starts with the pattern p. -/
def startsWithL : List Char → List Char → Bool
  | [], _ => true
  | _ :: _, [] => false
  | p :: ps, c :: cs => p == c && startsWithL ps cs

/-- line.substr(line.length() - p.length(), p.length()): the trailing
p.length() characters of line.  When p is longer than line the size_t
position wraps around and std::string::substr throws std::out_of_range. -/
def substrTail (line p : List Char) : Except Err (List Char) :=
  if p.length ≤ line.length then .ok (line.drop (line.length - p.length))
  else .error .substrRange

/-- Tokenisation loop of getVertexCount: repeated std::getline(iss, token,
space).  Splits at every space, keeps interior empty tokens, and produces
no token for the end of a string that terminates in the delimiter. -/
def cppSplit (d : Char) : List Char → List (List Char)
  | [] => []
  | c :: cs =>
    if c = d then [] :: cppSplit d cs
    else
      match cppSplit d cs with
      | [] => [[c]]
      | t :: ts => (c :: t) :: ts

/-- Decimal digit character, as produced by operator<< on an integer. -/
def decDigitChar (d : ℕ) : Char := Char.ofNat (48 + d)

/-- Numeric value of a decimal digit character. -/
def digitVal (c : Char) : ℕ := c.toNat - 48

/-- Test for a decimal digit character. -/
def isDigitB (c : Char) : Bool := 48 ≤ c.toNat && c.toNat ≤ 57

/-- Whitespace in the default C locale, skipped by std::stoi. -/
def isSpaceB (c : Char) : Bool :=
  c == ' ' || c == '\t' || c == '\n' || c == Char.ofNat 11 || c == Char.ofNat 12 || c == '\r'

/-- operator<< on an unsigned integer: the decimal digits, most
significant first.  The first argument is fuel; natToDec supplies the
number itself, which always suffices since n has at most n digits. -/
def natToDecAux : ℕ → ℕ → List Char
  | 0, _ => []
  | _ + 1, 0 => []
  | fuel + 1, n => natToDecAux fuel (n / 10) ++ [decDigitChar (n % 10)]

/-- Decimal rendering of a Nat, as written by operator<< on size_t. -/
def natToDec (n : ℕ) : List Char :=
  if n = 0 then ['0'] else natToDecAux n n

/-- std::stoi: skip leading whitespace, an optional sign, then decimal
digits (trailing characters are ignored).  Throws std::invalid_argument
when no digit follows and std::out_of_range when the value does not fit a
32-bit int. -/
def stoi (s : List Char) : Except Err Int :=
  let s1 := s.dropWhile isSpaceB
  let (neg, s2) : Bool × List Char :=
    match s1 with
    | [] => (false, [])
    | c :: r =>
      if c = '-' then (true, r)
      else if c = '+' then (false, r)
      else (false, c :: r)
  let ds := s2.takeWhile isDigitB
  if ds = [] then .error .stoiInvalid
  else
    let v : ℕ := ds.foldl (fun a c => a * 10 + digitVal c) 0
    let val : Int := if neg then -(v : Int) else (v : Int)
    if val < -2147483648 ∨ 2147483647 < val then .error .stoiRange else .ok val

/-- Implicit conversion of the int returned by std::stoi to the size_t
returned by getVertexCount: reduction modulo 2^64. -/
def intToSize (v : Int) : ℕ := (v.emod (2 ^ 64)).toNat

/-- Opaque 4-byte representation of a 32-bit float. -/
structure F32 where
  b0 : ℕ
  b1 : ℕ
  b2 : ℕ
  b3 : ℕ
deriving DecidableEq

/-- A zero-initialised float (all bytes zero), the state of a
value-initialised std::vector element before any byte is read into it. -/
def F32.zero : F32 := ⟨0, 0, 0, 0⟩

/-- The four bytes of a float in storage order. -/
def F32.bytes (f : F32) : List ℕ := [f.b0, f.b1, f.b2, f.b3]

/-- Reassemble a float from the first four bytes of a buffer (the buffer
always has length at least 4 where this is used). -/
def f32OfBytes (l : List ℕ) : F32 := ⟨l.getD 0 0, l.getD 1 0, l.getD 2 0, l.getD 3 0⟩

/-- The twelve bytes of a std::array of three floats in storage order. -/
def f32x3Bytes (p : F32 × F32 × F32) : List ℕ :=
  p.1.bytes ++ p.2.1.bytes ++ p.2.2.bytes

/-- The in-memory Dataset of src/point_io.hpp: per-point columns.  The
pointMap / base back-reference, the lazily built kd-tree handle and the
spacing cache do not take part in the codec; the spacing cache is
threaded explicitly through the spacing model below. -/
structure PointSet where
  points : List (F32 × F32 × F32)
  colors : List (ℕ × ℕ × ℕ)
  normals : List (F32 × F32 × F32)
  labels : List ℕ
  views : List ℕ
deriving DecidableEq

def PointSet.count (D : PointSet) : ℕ := D.points.length

def PointSet.hasNormals (D : PointSet) : Bool := decide (0 < D.normals.length)

def PointSet.hasColors (D : PointSet) : Bool := decide (0 < D.colors.length)

def PointSet.hasViews (D : PointSet) : Bool := decide (0 < D.views.length)

def PointSet.hasLabels (D : PointSet) : Bool := decide (0 < D.labels.length)

/-- One optional column is either empty or exactly as long as the points
column. -/
def colOk (n len : ℕ) : Prop := len = 0 ∨ len = n

instance (n len : ℕ) : Decidable (colOk n len) := by
  unfold colOk; infer_instance

/-- The column-length invariant of the Dataset (spec section 3). -/
def PointSet.invariant (D : PointSet) : Prop :=
  colOk D.points.length D.colors.length ∧
  colOk D.points.length D.normals.length ∧
  colOk D.points.length D.views.length ∧
  colOk D.points.length D.labels.length

instance (D : PointSet) : Decidable D.invariant := by
  unfold PointSet.invariant; infer_instance

/-- PointSet::appendPoint: push_back of the source point and the source
colour at the given index onto the derived set.  Only the points and
colors columns are touched. -/
def appendPoint (dst src : PointSet) (idx : ℕ) : Except Err PointSet := do
  let p ← vecGet src.points idx
  let c ← vecGet src.colors idx
  pure { dst with points := dst.points ++ [p], colors := dst.colors ++ [c] }

/-- A file produced or consumed by the native codec: the text lines of the
header followed by the bytes of the binary body. -/
structure PlyFile where
  header : List (List Char)
  body : List ℕ
deriving DecidableEq

/-- std::getline during header parsing: at end of file the stream fails
and (since C++11) the line is left empty. -/
def getlineH : List (List Char) → List Char × List (List Char)
  | [] => ([], [])
  | l :: ls => (l, ls)

/-- getVertexLine: skip comment lines and return the first line starting
with element; any other line (including the empty line produced by a
failed getline at end of file) throws. -/
def getVertexLine : List (List Char) → Except Err (List Char × List (List Char))
  | [] => .error (.runtimeError "Invalid PLY file")
  | l :: ls =>
    if startsWithL "element".toList l then .ok (l, ls)
    else if startsWithL "comment".toList l then getVertexLine ls
    else .error (.runtimeError "Invalid PLY file")

/-- getVertexCount: split the element line at spaces, require at least
three tokens, validate the leading tokens (the source combines the two
comparisons with a logical AND, so the check only fires when BOTH the
first token differs from element and the second differs from vertex),
and parse the third token with std::stoi, with the int result converted
back to size_t. -/
def getVertexCount (line : List Char) : Except Err ℕ := do
  let tokens := cppSplit ' ' line
  if tokens.length < 3 then
    throw (.runtimeError "Invalid PLY file")
  else if tokens.getD 0 [] ≠ "element".toList ∧ tokens.getD 1 [] ≠ "vertex".toList then
    throw (.runtimeError "Invalid PLY file")
  else do
    let v ← stoi (tokens.getD 2 [])
    pure (intToSize v)

/-- checkHeader: consume one line, strip carriage returns, and require the
expected property name as a suffix. -/
def checkHeader (lines : List (List Char)) (prop : List Char) :
    Except Err (List (List Char)) := do
  let (line, rest) := getlineH lines
  let line := stripCR line
  let t ← substrTail line prop
  if t ≠ prop then throw (.runtimeError "Invalid PLY file (unexpected property)")
  else pure rest

/-- hasHeader: the line starts with property and ends with the property
name.  The suffix extraction (which can throw, see substrTail) is only
evaluated when the first comparison succeeds, mirroring the
short-circuit of the C++ logical AND. -/
def hasHeader (line prop : List Char) : Except Err Bool :=
  if line.take 8 = "property".toList then
    (substrTail line prop).map (fun t => t == prop)
  else .ok false

/-- Short-circuit disjunction of hasHeader over several name variants,
mirroring the C++ logical OR. -/
def hasHeaderOr (line : List Char) : List (List Char) → Except Err Bool
  | [] => .ok false
  | p :: ps => do
    if (← hasHeader line p) then pure true else hasHeaderOr line ps

/-- State of the property-scanning loop of fastPlyReadPointSet:
the channel flags, the label dimension name, the declared slots of the
three colour channels (defaulting to 0, 1, 2) and the field counter c. -/
structure ScanState where
  hasViews : Bool
  hasNormals : Bool
  hasColors : Bool
  labelDim : List Char
  redIdx : ℕ
  greenIdx : ℕ
  blueIdx : ℕ
  c : ℕ
deriving DecidableEq

def initScan : ScanState :=
  ⟨false, false, false, [], 0, 1, 2, 0⟩

/-- One iteration of the scanning loop body: all the hasHeader tests of
lines 187-204 of point_io.cpp in source order, using the current value of
the field counter, followed by the post-increment of c. -/
def processLine (st : ScanState) (line : List Char) : Except Err ScanState := do
  let n ← hasHeaderOr line ["nx".toList, "normal_x".toList, "normalx".toList]
  let st := if n then { st with hasNormals := true } else st
  let r ← hasHeader line "red".toList
  let st := if r then { st with hasColors := true, redIdx := st.c } else st
  let g ← hasHeader line "green".toList
  let st := if g then { st with hasColors := true, greenIdx := st.c } else st
  let b ← hasHeader line "blue".toList
  let st := if b then { st with hasColors := true, blueIdx := st.c } else st
  let v ← hasHeader line "views".toList
  let st := if v then { st with hasViews := true } else st
  let l1 ← hasHeader line "label".toList
  let st := if l1 then { st with labelDim := "label".toList } else st
  let l2 ← hasHeader line "classification".toList
  let st := if l2 then { st with labelDim := "classification".toList } else st
  let l3 ← hasHeader line "class".toList
  let st := if l3 then { st with labelDim := "class".toList } else st
  pure { st with c := st.c + 1 }

/-- Continuation of the scanning loop after the header lines have run
out: every further getline fails and leaves the line empty, an empty line
matches no property test, and the loop keeps incrementing c until the
100-field guard breaks out.  The fuel argument is the remaining guard
budget 101 - c, supplied by scanLoop, so the recursion is structural. -/
def scanLoopEmpty : ℕ → ScanState → Except Err (ScanState × List (List Char))
  | 0, st => do
    let st' ← processLine st []
    pure (st', [])
  | fuel + 1, st => do
    let st' ← processLine st []
    if st.c > 100 then pure (st', [])
    else scanLoopEmpty fuel st'

/-- The property-scanning loop of fastPlyReadPointSet (lines 186-209):
stop at end_header; otherwise process the line, break once the
100-field corruption guard trips (the test uses the value of c before
the post-increment), and read the next line with carriage returns
stripped. -/
def scanLoop (st : ScanState) (line : List Char) :
    List (List Char) → Except Err (ScanState × List (List Char))
  | [] =>
    if line = "end_header".toList then .ok (st, [])
    else do
      let st' ← processLine st line
      if st.c > 100 then pure (st', [])
      else scanLoopEmpty (101 - st'.c) st'
  | l :: ls =>
    if line = "end_header".toList then .ok (st, l :: ls)
    else do
      let st' ← processLine st line
      if st.c > 100 then pure (st', l :: ls)
      else scanLoop st' (stripCR l) ls

/-- A binary input stream: the remaining bytes and the failbit. -/
structure IStream where
  bytes : List ℕ
  fail : Bool
deriving DecidableEq

/-- istream::read(dst, n) where the n-byte destination currently holds
old: on a failed stream nothing happens; otherwise the available bytes
(at most n) are copied into the front of the destination, the rest of the
destination keeps its previous contents, and the failbit is set when
fewer than n bytes were available. -/
def readN (n : ℕ) (old : List ℕ) (s : IStream) : List ℕ × IStream :=
  if s.fail then (old, s)
  else if n ≤ s.bytes.length then (s.bytes.take n, ⟨s.bytes.drop n, false⟩)
  else (s.bytes ++ old.drop s.bytes.length, ⟨[], true⟩)

/-- reader.read of sizeof(float) * 3 bytes into a zero-initialised
three-float array element. -/
def readF32x3 (s : IStream) : (F32 × F32 × F32) × IStream :=
  let (bs, s') := readN 12 (List.replicate 12 0) s
  ((f32OfBytes bs, f32OfBytes (bs.drop 4), f32OfBytes (bs.drop 8)), s')

/-- colors[i][j] = v on a std::array of three uint8_t: an index other
than 0, 1, 2 is an out-of-bounds write (undefined behaviour in C++). -/
def setArr3 (t : ℕ × ℕ × ℕ) (i v : ℕ) : Except Err (ℕ × ℕ × ℕ) :=
  match i with
  | 0 => .ok (v, t.2.1, t.2.2)
  | 1 => .ok (t.1, v, t.2.2)
  | 2 => .ok (t.1, t.2.1, v)
  | _ => .error .oobWrite

/-- The binary record-decoding loop of fastPlyReadPointSet (lines
262-289), producing the five columns (in read order: points, normals,
colors, views, labels).  Absent channels produce empty columns, matching
the vectors that were never resized.  cbuf is the uint8_t color[3] stack
buffer declared outside the loop: a short read leaves part of its
previous contents in place.  Its initial contents are indeterminate in
C++ (the buffer is uninitialised); the caller passes zeros, and no claim
depends on the colour bytes of a record that the file truncates. -/
def readRecordsBin (hn hc hv hl : Bool) (ri gi bi : ℕ) :
    ℕ → IStream → ℕ × ℕ × ℕ →
    Except Err (List (F32 × F32 × F32) × List (F32 × F32 × F32) ×
      List (ℕ × ℕ × ℕ) × List ℕ × List ℕ)
  | 0, _, _ => .ok ([], [], [], [], [])
  | n + 1, s, cbuf => do
    let (pt, s) := readF32x3 s
    let (nor, s) :=
      if hn then readF32x3 s else ((F32.zero, F32.zero, F32.zero), s)
    let (cbuf, col, s) ←
      if hc then do
        let (cb, s') := readN 3 [cbuf.1, cbuf.2.1, cbuf.2.2] s
        let cbuf' : ℕ × ℕ × ℕ := (cb.getD 0 0, cb.getD 1 0, cb.getD 2 0)
        let c1 ← setArr3 (0, 0, 0) ri cbuf'.1
        let c2 ← setArr3 c1 gi cbuf'.2.1
        let c3 ← setArr3 c2 bi cbuf'.2.2
        pure (cbuf', c3, s')
      else pure (cbuf, (0, 0, 0), s)
    let (vw, s) :=
      if hv then
        let (vb, s') := readN 1 [0] s
        (vb.getD 0 0, s')
      else (0, s)
    let (lb, s) :=
      if hl then
        let (lbb, s') := readN 1 [0] s
        (lbb.getD 0 0, s')
      else (0, s)
    let (pts, nors, cols, vws, lbs) ← readRecordsBin hn hc hv hl ri gi bi n s cbuf
    pure (pt :: pts,
      (if hn then nor :: nors else []),
      (if hc then col :: cols else []),
      (if hv then vw :: vws else []),
      (if hl then lb :: lbs else []))

/-- fastPlyReadPointSet (lines 146-318): parse the header, derive the
attribute schema, and decode the records.  File-opening failure is an
environment condition outside the model.  The ascii record branch parses
decimal float text, which has no counterpart under the byte-opaque float
model; it is marked with the asciiBody error (the writer always produces
binary files and every claim exercises binary input). -/
def fastPlyReadPointSet (f : PlyFile) : Except Err PointSet := do
  let (l1, rest1) := getlineH f.header
  let l1 := stripCR l1
  if l1 ≠ "ply".toList then
    throw (.runtimeError "Invalid PLY file (header does not start with ply)")
  else do
    let (l2, rest2) := getlineH rest1
    let l2 := stripCR l2
    let ascii := l2 = "format ascii 1.0".toList
    let (vertexLine, rest3) ← getVertexLine rest2
    let count ← getVertexCount vertexLine
    let rest4 ← checkHeader rest3 "x".toList
    let rest5 ← checkHeader rest4 "y".toList
    let rest6 ← checkHeader rest5 "z".toList
    let (line0, rest7) := getlineH rest6
    let line0 := stripCR line0
    let (st, _restLines) ← scanLoop initScan line0 rest7
    let colorIdxMin := min (min st.redIdx st.greenIdx) st.blueIdx
    let redIdx := st.redIdx - colorIdxMin
    let greenIdx := st.greenIdx - colorIdxMin
    let blueIdx := st.blueIdx - colorIdxMin
    if redIdx + greenIdx + blueIdx ≠ 3 then
      throw (.runtimeError "red/green/blue properties need to be contiguous")
    else do
      let hasLabels := st.labelDim ≠ []
      if ascii then throw .asciiBody
      else do
        let (pts, nors, cols, vws, lbs) ←
          readRecordsBin st.hasNormals st.hasColors st.hasViews hasLabels
            redIdx greenIdx blueIdx count ⟨f.body, false⟩ (0, 0, 0)
        pure ⟨pts, cols, nors, lbs, vws⟩

/-- The bytes written for one point record by the body loop of
fastPlySavePointSet (lines 555-561): position, then normal, colour,
view and label bytes when the corresponding channel flag (hoisted before
the loop from the column sizes) is set. -/
def recordBytes (hn hc hv hl : Bool) (D : PointSet) (i : ℕ) :
    Except Err (List ℕ) := do
  let p ← vecGet D.points i
  let nb ← if hn then do
      let x ← vecGet D.normals i
      pure (f32x3Bytes x)
    else pure []
  let cb ← if hc then do
      let c ← vecGet D.colors i
      pure [c.1, c.2.1, c.2.2]
    else pure []
  let vb ← if hv then do
      let v ← vecGet D.views i
      pure [v]
    else pure []
  let lb ← if hl then do
      let l ← vecGet D.labels i
      pure [l]
    else pure []
  pure (f32x3Bytes p ++ nb ++ cb ++ vb ++ lb)

/-- The header emitted by fastPlySavePointSet (lines 523-553), in
emission order. -/
def mkSaveHeader (hn hc hv hl : Bool) (n : ℕ) : List (List Char) :=
  "ply".toList ::
  "format binary_little_endian 1.0".toList ::
  "comment Generated by OpenPointClass".toList ::
  ("element vertex ".toList ++ natToDec n) ::
  "property float x".toList ::
  "property float y".toList ::
  "property float z".toList ::
  ((if hn then ["property float nx".toList, "property float ny".toList,
      "property float nz".toList] else []) ++
    (if hc then ["property uchar red".toList, "property uchar green".toList,
      "property uchar blue".toList] else []) ++
    (if hv then ["property uchar views".toList] else []) ++
    (if hl then ["property uchar classification".toList] else []) ++
    ["end_header".toList])

/-- fastPlySavePointSet (lines 520-565): emit the header derived from the
non-empty columns, then one binary record per point. -/
def fastPlySavePointSet (D : PointSet) : Except Err PlyFile := do
  let hn := D.hasNormals
  let hc := D.hasColors
  let hv := D.hasViews
  let hl := D.hasLabels
  let recs ← (List.range D.count).mapM (recordBytes hn hc hv hl D)
  pure ⟨mkSaveHeader hn hc hv hl D.count, recs.flatten⟩

/-- savePointSet (lines 457-467): a per-point loop that reads
pSet.labels[idx] for every index below pSet.count() (the int variable it
assigns is never used), followed by the dispatch on the file extension.
The non-native branch models a build without PDAL support, in which
pdalSavePointSet throws. -/
def savePointSet (D : PointSet) (plyExt : Bool) : Except Err PlyFile := do
  let _ ← (List.range D.count).mapM (fun idx => vecGet D.labels idx)
  if plyExt then fastPlySavePointSet D
  else throw (.runtimeError "Unsupported file extension")

/-- Conversion of an int label to the uint8_t element it is stored into:
reduction modulo 256. -/
def u8OfInt (v : Int) : ℕ := (v.emod 256).toNat

/-- The label-remapping stage of readPointSet (lines 114-141).  The
class-mapping dictionary (getClassMappings, read from a JSON sidecar
file) and the two training-code dictionaries (getTrainingCodes and
getAsprs2TrainCodes, declared in labels.hpp and supplied as external
configuration) are parameters: mappings is the source-label to
semantic-name map, tc the semantic-name to training-code dictionary
(std::unordered_map operator access, total with a default), a2t the
fixed ASPRS fallback table. -/
def remapLabels (mappings : List (Int × String)) (tc : String → Int)
    (a2t : Int → Int) (D : PointSet) : Except Err PointSet := do
  if D.hasLabels then
    if mappings ≠ [] then do
      let ls ← (List.range D.count).foldlM (fun (ls : List ℕ) idx => do
        let l ← vecGet ls idx
        let label : Int :=
          match mappings.lookup (l : Int) with
          | some nm => tc nm
          | none => tc "unassigned"
        pure (ls.set idx (u8OfInt label))) D.labels
      pure { D with labels := ls }
    else do
      let ls ← (List.range D.count).foldlM (fun (ls : List ℕ) idx => do
        let l ← vecGet ls idx
        pure (ls.set idx (u8OfInt (a2t (l : Int))))) D.labels
      pure { D with labels := ls }
  else pure D

/-- readPointSet (lines 108-144): dispatch on the file extension (the
non-native branch models a build without PDAL support, in which
pdalReadPointSet throws), then remap the labels. -/
def readPointSet (f : PlyFile) (plyExt : Bool) (mappings : List (Int × String))
    (tc : String → Int) (a2t : Int → Int) : Except Err PointSet := do
  let r ← if plyExt then fastPlyReadPointSet f
    else throw (.runtimeError "Unsupported file extension")
  remapLabels mappings tc a2t r

/-- The external spatial-index and random-sampling capabilities consumed
by PointSet::spacing: sample i is the i-th draw of the uniform index
distribution (the mt19937 output), and dist idx j is the square root of
sqr_dists[j] for a knnSearch at point idx, i.e. the distance from point
idx to its rank-j nearest neighbour as produced by nanoflann (the square
root, irrational in general, is folded into the oracle so that the
estimator stays computable over the rationals). -/
structure KnnOracle where
  sample : ℕ → ℕ
  dist : ℕ → ℕ → ℚ

/-- static_cast of std::ceil to size_t (negative values, impossible for
sums of distances, are clamped; in C++ they would be undefined). -/
def ceilToSize (q : ℚ) : ℕ := (⌈q⌉).toNat

/-- The unordered_map update of lines 51-56: increment the count of the
bucket, inserting it with count one when absent.  The model keeps the
buckets in insertion order, a deterministic stand-in for the unspecified
iteration order of std::unordered_map; no verified fact depends on the
order. -/
def bumpBucket (m : List (ℕ × ℕ)) (k : ℕ) : List (ℕ × ℕ) :=
  if (m.lookup k).isSome then
    m.map (fun kv => if kv.1 = k then (kv.1, kv.2 + 1) else kv)
  else m ++ [(k, 1)]

/-- The most-frequent-bucket scan of lines 60-67: strictly greater counts
win, so the first bucket encountered wins ties. -/
def mostFrequent (m : List (ℕ × ℕ)) : ℕ :=
  (m.foldl (fun acc kv => if kv.2 > acc.2 then kv else acc) (0, 0)).1

/-- The sampling loop and histogram of PointSet::spacing (lines 14-69)
for a dataset of np points: min(np, 10000) samples, for each the sum of
the distances at neighbour ranks 1 to kNeighbors - 1 divided by
kNeighbors, scaled by 100 and rounded up to a bucket key; the final
value is max(0.01, most frequent key / 100). -/
def spacingCompute (np kNeighbors : ℕ) (o : KnnOracle) : ℚ :=
  let SAMPLES := min np 10000
  let distMap := (List.range SAMPLES).foldl (fun m i =>
    let idx := o.sample i
    let sum : ℚ := (∑ j in Finset.Ico 1 kNeighbors, o.dist idx j) / (kNeighbors : ℚ)
    bumpBucket m (ceilToSize (sum * 100))) []
  let d := mostFrequent distMap
  max (1 / 100) ((d : ℚ) / 100)

/-- PointSet::spacing with the m_spacing cache threaded explicitly: the
result together with the new cache value.  A cache different from the -1
sentinel is returned unchanged without recomputation. -/
def spacing (np kNeighbors : ℕ) (o : KnnOracle) (mSpacing : ℚ) : ℚ × ℚ :=
  if mSpacing ≠ -1 then (mSpacing, mSpacing)
  else
    let s := spacingCompute np kNeighbors o
    (s, s)

/-- The per-sample statistic of lines 36-40 over the reals: the sum of
the square roots of sqr_dists at ranks 1 to kNeighbors - 1, divided by
kNeighbors. -/
noncomputable def sampleStat (kNeighbors : ℕ) (sqrDists : ℕ → ℝ) : ℝ :=
  (∑ j in Finset.Ico 1 kNeighbors, Real.sqrt (sqrDists j)) / (kNeighbors : ℝ)

/-- The statistic named by the specification (root-mean-square of the
distances at ranks 1 to kNeighbors - 1, which are kNeighbors - 1 many
values), stated from the specification text for comparison with
sampleStat. -/
noncomputable def specRmsStat (kNeighbors : ℕ) (sqrDists : ℕ → ℝ) : ℝ :=
  Real.sqrt ((∑ j in Finset.Ico 1 kNeighbors, sqrDists j) / ((kNeighbors : ℝ) - 1))

/-- The Dataset with the first entry of every column removed
(proof infrastructure for the record induction). -/
def tailPS (D : PointSet) : PointSet :=
  ⟨D.points.tail, D.colors.tail, D.normals.tail, D.labels.tail, D.views.tail⟩

/-! Concrete fixtures used by the witnesses and counterexamples. -/

/-- A one-point Dataset with every optional column populated. -/
def Dw : PointSet :=
  ⟨[(⟨1, 2, 3, 4⟩, ⟨5, 6, 7, 8⟩, ⟨9, 10, 11, 12⟩)], [(20, 30, 40)],
    [(⟨13, 14, 15, 16⟩, ⟨17, 18, 19, 20⟩, ⟨21, 22, 23, 24⟩)], [7], [3]⟩

/-- A Dataset with one more point than fits in a 32-bit int. -/
def bigD : PointSet :=
  ⟨List.replicate 2147483648 (F32.zero, F32.zero, F32.zero), [], [], [], []⟩

/-- A coordinates-only binary file declaring two records; its body is
supplied by the caller (the fixtures pass fewer bytes than the two
declared records require). -/
def truncFile (body : List ℕ) : PlyFile :=
  ⟨["ply".toList, "format binary_little_endian 1.0".toList,
    "element vertex 2".toList, "property float x".toList,
    "property float y".toList, "property float z".toList,
    "end_header".toList], body⟩

/-- A binary file whose header declares red at slot 1 and blue at slot 4
among the post-coordinate properties, with no green property (so the
green slot keeps its default 1): the rebased offsets are 0, 0 and 3 -
not contiguous and not the set 0, 1, 2 - yet their sum is 3.  This
variant declares zero records. -/
def file5 : PlyFile :=
  ⟨["ply".toList, "format binary_little_endian 1.0".toList,
    "element vertex 0".toList, "property float x".toList,
    "property float y".toList, "property float z".toList,
    "property uchar a".toList, "property uchar red".toList,
    "property uchar b".toList, "property uchar d".toList,
    "property uchar blue".toList, "end_header".toList], []⟩

/-- The same malformed header as file5 but declaring one record, with a
full record of bytes in the body. -/
def file5b : PlyFile :=
  ⟨["ply".toList, "format binary_little_endian 1.0".toList,
    "element vertex 1".toList, "property float x".toList,
    "property float y".toList, "property float z".toList,
    "property uchar a".toList, "property uchar red".toList,
    "property uchar b".toList, "property uchar d".toList,
    "property uchar blue".toList, "end_header".toList],
   [1, 2, 3, 4, 5, 6, 7, 8, 9, 10, 11, 12, 13, 14, 15]⟩

/-- A binary file whose element line reads element face 1 - the second
token is not vertex - with an otherwise well-formed one-record body. -/
def file6 : PlyFile :=
  ⟨["ply".toList, "format binary_little_endian 1.0".toList,
    "element face 1".toList, "property float x".toList,
    "property float y".toList, "property float z".toList,
    "end_header".toList], [1, 2, 3, 4, 5, 6, 7, 8, 9, 10, 11, 12]⟩

/-- A trivial oracle (never consulted on an empty dataset). -/
def oracle0 : KnnOracle := ⟨fun _ => 0, fun _ _ => 0⟩

/-- The class mapping of the specification example: source label 5 maps
to the semantic name ground. -/
def ms7 : List (Int × String) := [(5, "ground")]

/-- The training codes of the specification example: ground is 2,
unassigned is 0. -/
def tc7 : String → Int := fun s => if s = "ground" then 2 else 0

/-- An arbitrary fallback table (unused when an explicit mapping is
supplied). -/
def a2t7 : Int → Int := fun _ => 0

/-- A three-point Dataset with labels 5, 7, 5. -/
def D7 : PointSet :=
  ⟨[(F32.zero, F32.zero, F32.zero), (F32.zero, F32.zero, F32.zero),
    (F32.zero, F32.zero, F32.zero)], [], [], [5, 7, 5], []⟩

/-- A derived one-point Dataset with points, colors and normals
populated: it satisfies the column-length invariant. -/
def D9 : PointSet :=
  ⟨[(F32.zero, F32.zero, F32.zero)], [(1, 2, 3)],
    [(⟨1, 0, 0, 0⟩, ⟨0, 1, 0, 0⟩, ⟨0, 0, 1, 0⟩)], [], []⟩

/-- A source Dataset with one point and one colour. -/
def src9 : PointSet :=
  ⟨[(⟨9, 9, 9, 9⟩, ⟨9, 9, 9, 9⟩, ⟨9, 9, 9, 9⟩)], [(9, 9, 9)], [], [], []⟩

/-- A one-point Dataset with no labels (points non-empty, labels empty:
it satisfies the column-length invariant). -/
def D10 : PointSet :=
  ⟨[(F32.zero, F32.zero, F32.zero)], [], [], [], []⟩

/-! Helper lemmas about decimal rendering and parsing. -/

theorem natToDecAux_zero (fuel : ℕ) : natToDecAux fuel 0 = [] := by
  cases fuel <;> rfl

theorem natToDecAux_succ (fuel m : ℕ) :
    natToDecAux (fuel + 1) (m + 1) =
      natToDecAux fuel ((m + 1) / 10) ++ [decDigitChar ((m + 1) % 10)] := rfl

theorem digit_facts : ∀ d < 10, digitVal (decDigitChar d) = d ∧
    48 ≤ (decDigitChar d).toNat ∧ (decDigitChar d).toNat ≤ 57 := by decide

theorem natToDecAux_digits (fuel : ℕ) :
    ∀ n, ∀ c ∈ natToDecAux fuel n, 48 ≤ c.toNat ∧ c.toNat ≤ 57 := by
  induction fuel with
  | zero => intro n c hc; simp [natToDecAux] at hc
  | succ f ih =>
    intro n c hc
    match n with
    | 0 => rw [natToDecAux_zero] at hc; simp at hc
    | m + 1 =>
      rw [natToDecAux_succ] at hc
      rcases List.mem_append.mp hc with h | h
      · exact ih _ c h
      · have hd : (m + 1) % 10 < 10 := Nat.mod_lt _ (by norm_num)
        simp only [List.mem_singleton] at h
        subst h
        exact (digit_facts _ hd).2

theorem natToDec_digits (n : ℕ) : ∀ c ∈ natToDec n, 48 ≤ c.toNat ∧ c.toNat ≤ 57 := by
  unfold natToDec
  split
  · intro c hc; simp only [List.mem_singleton] at hc; subst hc; exact ⟨by decide, by decide⟩
  · exact natToDecAux_digits n n

theorem natToDec_ne_nil (n : ℕ) : natToDec n ≠ [] := by
  unfold natToDec
  split
  · simp
  · next h =>
    match hm : n with
    | 0 => exact absurd rfl h
    | m + 1 => rw [natToDecAux_succ]; simp

theorem natToDec_no_space (n : ℕ) : ∀ c ∈ natToDec n, c ≠ ' ' := by
  intro c hc
  have h := natToDec_digits n c hc
  intro he
  subst he
  exact absurd h.1 (by decide)

theorem foldl_natToDecAux (fuel : ℕ) : ∀ n init, n ≤ fuel →
    (natToDecAux fuel n).foldl (fun a c => a * 10 + digitVal c) init =
      init * 10 ^ (natToDecAux fuel n).length + n := by
  induction fuel with
  | zero =>
    intro n init hn
    interval_cases n
    simp [natToDecAux]
  | succ f ih =>
    intro n init hn
    match n with
    | 0 => rw [natToDecAux_zero]; simp
    | m + 1 =>
      rw [natToDecAux_succ]
      have hdiv : (m + 1) / 10 ≤ f := by
        have := Nat.div_lt_self (Nat.succ_pos m) (by norm_num : 1 < 10)
        omega
      rw [List.foldl_append]
      rw [ih ((m + 1) / 10) init hdiv]
      have hd : (m + 1) % 10 < 10 := Nat.mod_lt _ (by norm_num)
      simp only [List.foldl_cons, List.foldl_nil, (digit_facts _ hd).1,
        List.length_append, List.length_singleton]
      rw [pow_succ]
      have := Nat.div_add_mod (m + 1) 10
      ring_nf
      omega

theorem foldl_natToDec (n : ℕ) :
    (natToDec n).foldl (fun a c => a * 10 + digitVal c) 0 = n := by
  unfold natToDec
  split
  · next h => subst h; decide
  · rw [foldl_natToDecAux n n 0 le_rfl]; simp

/-! Helper lemmas about the tokenizer. -/

theorem cppSplit_cons_ne (d x : Char) (xs : List Char) (hx : x ≠ d) :
    cppSplit d (x :: xs) =
      match cppSplit d xs with
      | [] => [[x]]
      | t :: ts => (x :: t) :: ts := by
  simp only [cppSplit]
  rw [if_neg hx]

theorem cppSplit_delim_cons (d : Char) (xs : List Char) :
    cppSplit d (d :: xs) = [] :: cppSplit d xs := by
  simp [cppSplit]

theorem cppSplit_no_delim (d : Char) :
    ∀ xs, xs ≠ [] → (∀ c ∈ xs, c ≠ d) → cppSplit d xs = [xs] := by
  intro xs
  induction xs with
  | nil => intro h; exact absurd rfl h
  | cons x t ih =>
    intro _ hall
    have hx : x ≠ d := hall x (List.mem_cons_self x t)
    rw [cppSplit_cons_ne d x t hx]
    match t with
    | [] => rfl
    | y :: t' =>
      have ht : cppSplit d (y :: t') = [y :: t'] := by
        refine ih (by simp) ?_
        intro c hc; exact hall c (List.mem_cons_of_mem x hc)
      rw [ht]

theorem cppSplit_seg (d : Char) :
    ∀ xs ys, xs ≠ [] → (∀ c ∈ xs, c ≠ d) →
      cppSplit d (xs ++ d :: ys) = xs :: cppSplit d ys := by
  intro xs
  induction xs with
  | nil => intro ys h; exact absurd rfl h
  | cons x t ih =>
    intro ys _ hall
    have hx : x ≠ d := hall x (List.mem_cons_self x t)
    match t with
    | [] =>
      simp only [List.nil_append, List.cons_append]
      rw [cppSplit_cons_ne d x (d :: ys) hx, cppSplit_delim_cons]
    | y :: t' =>
      have ht := ih ys (by simp)
        (fun c hc => hall c (List.mem_cons_of_mem x hc))
      simp only [List.cons_append] at ht ⊢
      rw [cppSplit_cons_ne d x (y :: (t' ++ d :: ys)) hx, ht]

theorem cppSplit_element (ds : List Char) (h1 : ds ≠ [])
    (h2 : ∀ c ∈ ds, c ≠ ' ') :
    cppSplit ' ' ("element vertex ".toList ++ ds) =
      ["element".toList, "vertex".toList, ds] := by
  have e1 : "element vertex ".toList ++ ds =
      "element".toList ++ ' ' :: ("vertex".toList ++ ' ' :: ds) := rfl
  rw [e1]
  rw [cppSplit_seg ' ' "element".toList _ (by decide) (by decide)]
  rw [cppSplit_seg ' ' "vertex".toList _ (by decide) (by decide)]
  rw [cppSplit_no_delim ' ' ds h1 h2]

/-! Evaluation of std::stoi on a rendered decimal count. -/

theorem isSpaceB_digit {c : Char} (h : 48 ≤ c.toNat ∧ c.toNat ≤ 57) :
    isSpaceB c = false := by
  unfold isSpaceB
  have h32 : c ≠ ' ' := by rintro rfl; exact absurd h.1 (by decide)
  have h9 : c ≠ '\t' := by rintro rfl; exact absurd h.1 (by decide)
  have h10 : c ≠ '\n' := by rintro rfl; exact absurd h.1 (by decide)
  have h11 : c ≠ Char.ofNat 11 := by rintro rfl; exact absurd h.1 (by decide)
  have h12 : c ≠ Char.ofNat 12 := by rintro rfl; exact absurd h.1 (by decide)
  have h13 : c ≠ '\r' := by rintro rfl; exact absurd h.1 (by decide)
  simp [h32, h9, h10, h11, h12, h13]

theorem isDigitB_digit {c : Char} (h : 48 ≤ c.toNat ∧ c.toNat ≤ 57) :
    isDigitB c = true := by
  unfold isDigitB
  simp [h.1, h.2]

theorem stoi_digits (c : Char) (rest : List Char)
    (hdig : ∀ x ∈ c :: rest, 48 ≤ x.toNat ∧ x.toNat ≤ 57) :
    stoi (c :: rest) =
      (let v : ℕ := (c :: rest).foldl (fun a x => a * 10 + digitVal x) 0
       if 2147483647 < v then .error .stoiRange else .ok (v : Int)) := by
  have hc := hdig c (List.mem_cons_self c rest)
  have hcm : c ≠ '-' := by rintro rfl; exact absurd hc.1 (by decide)
  have hcp : c ≠ '+' := by rintro rfl; exact absurd hc.1 (by decide)
  have htake : (c :: rest).takeWhile isDigitB = c :: rest := by
    rw [List.takeWhile_eq_self_iff]
    intro a ha; exact isDigitB_digit (hdig a ha)
  simp only [stoi, List.dropWhile_cons, isSpaceB_digit hc, Bool.false_eq_true, if_false,
    if_neg hcm, if_neg hcp, htake]
  rw [if_neg (by simp)]
  set v : ℕ := (c :: rest).foldl (fun a x => a * 10 + digitVal x) 0 with hv
  have hlow : ¬ ((v : Int) < -2147483648) := by
    intro h
    have : (0 : Int) ≤ (v : Int) := Int.ofNat_nonneg v
    omega
  by_cases hbig : 2147483647 < v
  · have hbig2 : (2147483647 : Int) < (v : Int) := by exact_mod_cast hbig
    rw [if_pos (Or.inr hbig2), if_pos hbig]
  · have hbig2 : ¬ ((2147483647 : Int) < (v : Int)) := by exact_mod_cast hbig
    rw [if_neg (by tauto), if_neg hbig]

theorem stoi_natToDec (n : ℕ) :
    stoi (natToDec n) =
      if n ≤ 2147483647 then .ok (n : Int) else .error .stoiRange := by
  obtain ⟨c, rest, hds⟩ : ∃ c rest, natToDec n = c :: rest := by
    match h : natToDec n with
    | [] => exact absurd h (natToDec_ne_nil n)
    | c :: rest => exact ⟨c, rest, rfl⟩
  have hdig : ∀ x ∈ c :: rest, 48 ≤ x.toNat ∧ x.toNat ≤ 57 := by
    rw [← hds]; exact natToDec_digits n
  rw [hds, stoi_digits c rest hdig]
  have hfold : (c :: rest).foldl (fun a x => a * 10 + digitVal x) 0 = n := by
    rw [← hds]; exact foldl_natToDec n
  simp only [hfold]
  by_cases hbig : n ≤ 2147483647
  · rw [if_neg (by omega), if_pos hbig]
  · rw [if_pos (by omega), if_neg hbig]

theorem intToSize_ofNat (n : ℕ) (h : n ≤ 2147483647) : intToSize (n : Int) = n := by
  unfold intToSize
  rw [show ((n : Int).emod (2 ^ 64)) = (n : Int) % (2 ^ 64) from rfl]
  rw [Int.emod_eq_of_lt (Int.ofNat_nonneg n) (by exact_mod_cast lt_of_le_of_lt h (by norm_num))]
  simp

theorem getVertexCount_saved (n : ℕ) :
    getVertexCount ("element vertex ".toList ++ natToDec n) =
      if n ≤ 2147483647 then .ok n else .error .stoiRange := by
  unfold getVertexCount
  rw [cppSplit_element (natToDec n) (natToDec_ne_nil n) (natToDec_no_space n)]
  simp only [List.length_cons, List.length_nil, List.getD, List.get?, Option.getD_some]
  rw [if_neg (by norm_num)]
  rw [if_neg (by intro h; exact h.1 rfl)]
  rw [stoi_natToDec n]
  by_cases hbig : n ≤ 2147483647
  · simp only [if_pos hbig]
    show Except.ok (intToSize (n : Int)) = Except.ok n
    rw [intToSize_ofNat n hbig]
  · simp [hbig]

/-! Infrastructure for the record-body round trip. -/

theorem headD_cons_tail {α : Type} (l : List α) (d : α) (h : l ≠ []) :
    l.headD d :: l.tail = l := by
  cases l with
  | nil => exact absurd rfl h
  | cons a t => rfl

theorem exists_cons_of_ne_nil {α : Type} (l : List α) (h : l ≠ []) :
    ∃ x xs, l = x :: xs := by
  cases l with
  | nil => exact absurd rfl h
  | cons a t => exact ⟨a, t, rfl⟩

theorem vecGet_succ {α : Type} (l : List α) (i : ℕ) :
    vecGet l (i + 1) = vecGet l.tail i := by
  cases l <;> rfl

theorem recordBytes_succ (hn hc hv hl : Bool) (D : PointSet) (i : ℕ) :
    recordBytes hn hc hv hl D (i + 1) = recordBytes hn hc hv hl (tailPS D) i := by
  simp only [recordBytes, tailPS, vecGet_succ]

theorem mapM_map_succ {α : Type} (g : ℕ → Except Err α) (l : List ℕ) :
    (l.map Nat.succ).mapM g = l.mapM (fun i => g (i + 1)) := by
  induction l with
  | nil => rfl
  | cons x t ih => simp only [List.map_cons, List.mapM_cons, ih]

theorem mapM_recordBytes_cons (hn hc hv hl : Bool) (D : PointSet) (n : ℕ) :
    (List.range (n + 1)).mapM (recordBytes hn hc hv hl D) = (do
      let r0 ← recordBytes hn hc hv hl D 0
      let rs ← (List.range n).mapM (recordBytes hn hc hv hl (tailPS D))
      pure (r0 :: rs)) := by
  rw [List.range_succ_eq_map, List.mapM_cons, mapM_map_succ]
  have he : (fun i => recordBytes hn hc hv hl D (i + 1)) =
      fun i => recordBytes hn hc hv hl (tailPS D) i :=
    funext (recordBytes_succ hn hc hv hl D)
  rw [he]

theorem readN_exact (n : ℕ) (bs tl old : List ℕ) (h : bs.length = n) :
    readN n old ⟨bs ++ tl, false⟩ = (bs, ⟨tl, false⟩) := by
  unfold readN
  simp only [Bool.false_eq_true, if_false, List.length_append]
  rw [if_pos (by omega), List.take_left' h, List.drop_left' h]

theorem readN_one (v : ℕ) (old : List ℕ) (tl : List ℕ) :
    readN 1 old ⟨v :: tl, false⟩ = ([v], ⟨tl, false⟩) := by
  have h := readN_exact 1 [v] tl old rfl
  simpa using h

theorem readN_three (a b c : ℕ) (old : List ℕ) (tl : List ℕ) :
    readN 3 old ⟨a :: b :: c :: tl, false⟩ = ([a, b, c], ⟨tl, false⟩) := by
  have h := readN_exact 3 [a, b, c] tl old rfl
  simpa using h

theorem readF32x3_exact (p : F32 × F32 × F32) (tl : List ℕ) :
    readF32x3 ⟨f32x3Bytes p ++ tl, false⟩ = (p, ⟨tl, false⟩) := by
  obtain ⟨⟨a0, a1, a2, a3⟩, ⟨b0, b1, b2, b3⟩, ⟨c0, c1, c2, c3⟩⟩ := p
  have hb : f32x3Bytes (⟨a0, a1, a2, a3⟩, ⟨b0, b1, b2, b3⟩, ⟨c0, c1, c2, c3⟩) =
      [a0, a1, a2, a3, b0, b1, b2, b3, c0, c1, c2, c3] := rfl
  unfold readF32x3
  rw [hb, readN_exact 12 [a0, a1, a2, a3, b0, b1, b2, b3, c0, c1, c2, c3] tl
    (List.replicate 12 0) rfl]
  rfl

theorem except_bind_ok {ε α β : Type} (x : α) (f : α → Except ε β) :
    (Except.ok x >>= f : Except ε β) = f x := rfl

theorem except_bind_err {ε α β : Type} (e : ε) (f : α → Except ε β) :
    ((Except.error e : Except ε α) >>= f : Except ε β) = .error e := rfl

theorem except_pure {ε α : Type} (x : α) :
    (pure x : Except ε α) = .ok x := rfl

theorem ebind_ok {ε α β : Type} (x : α) (f : α → Except ε β) :
    (Except.ok x : Except ε α).bind f = f x := rfl

/-- One step of the binary record decoder on a well-formed record, with
the rebased colour offsets 0, 1, 2. -/
theorem readRecordsBin_cons (hn hc hv hl : Bool) (n : ℕ)
    (p nor : F32 × F32 × F32) (col : ℕ × ℕ × ℕ) (vw lb : ℕ)
    (tl : List ℕ) (cbuf : ℕ × ℕ × ℕ)
    (pts nors : List (F32 × F32 × F32)) (cols : List (ℕ × ℕ × ℕ))
    (vws lbs : List ℕ)
    (hrec : readRecordsBin hn hc hv hl 0 1 2 n ⟨tl, false⟩
      (if hc then col else cbuf) = .ok (pts, nors, cols, vws, lbs)) :
    readRecordsBin hn hc hv hl 0 1 2 (n + 1)
      ⟨f32x3Bytes p ++ ((if hn then f32x3Bytes nor else []) ++
        ((if hc then [col.1, col.2.1, col.2.2] else []) ++
          ((if hv then [vw] else []) ++ ((if hl then [lb] else []) ++ tl)))),
        false⟩ cbuf =
      .ok (p :: pts,
        (if hn then nor :: nors else []),
        (if hc then col :: cols else []),
        (if hv then vw :: vws else []),
        (if hl then lb :: lbs else [])) := by
  obtain ⟨cr, cg, cbv⟩ := col
  cases hn <;> cases hc <;> cases hv <;> cases hl <;>
    simp_all [readRecordsBin, readF32x3_exact, readN_one, readN_three, setArr3,
      except_bind_ok, except_bind_err, except_pure]

/-- Evaluation of recordBytes at index zero on a dataset whose columns
are non-empty wherever the corresponding channel flag is set. -/
theorem recordBytes_zero (hn hc hv hl : Bool) (p : F32 × F32 × F32)
    (P' : List (F32 × F32 × F32)) (C : List (ℕ × ℕ × ℕ))
    (Nn : List (F32 × F32 × F32)) (L V : List ℕ)
    (hNn : hn = true → Nn ≠ []) (hC : hc = true → C ≠ [])
    (hV : hv = true → V ≠ []) (hL : hl = true → L ≠ []) :
    recordBytes hn hc hv hl ⟨p :: P', C, Nn, L, V⟩ 0 =
      .ok (f32x3Bytes p ++
        ((if hn then f32x3Bytes (Nn.headD (F32.zero, F32.zero, F32.zero)) else []) ++
        ((if hc then [(C.headD (0, 0, 0)).1, (C.headD (0, 0, 0)).2.1,
            (C.headD (0, 0, 0)).2.2] else []) ++
        ((if hv then [V.headD 0] else []) ++ (if hl then [L.headD 0] else []))))) := by
  cases hn <;> cases hc <;> cases hv <;> cases hl <;>
    rcases Nn with _ | ⟨n0, Nn⟩ <;> rcases C with _ | ⟨c0, C⟩ <;>
    rcases V with _ | ⟨v0, V⟩ <;> rcases L with _ | ⟨l0, L⟩ <;>
    simp_all [recordBytes, vecGet, except_bind_ok, except_pure, List.append_assoc]

/-- The round trip of the record body: writing every record of a Dataset
whose columns satisfy the length relations succeeds, and decoding the
concatenated bytes (with the rebased colour offsets 0, 1, 2 produced by
reading back the written header) returns exactly the original columns. -/
theorem write_read_records (hn hc hv hl : Bool) (P : List (F32 × F32 × F32)) :
    ∀ (C : List (ℕ × ℕ × ℕ)) (Nn : List (F32 × F32 × F32)) (V L : List ℕ),
      (hn = true → Nn.length = P.length) → (hn = false → Nn = []) →
      (hc = true → C.length = P.length) → (hc = false → C = []) →
      (hv = true → V.length = P.length) → (hv = false → V = []) →
      (hl = true → L.length = P.length) → (hl = false → L = []) →
      ∃ b : List (List ℕ),
        (List.range P.length).mapM (recordBytes hn hc hv hl ⟨P, C, Nn, L, V⟩) = .ok b ∧
        ∀ tl cbuf,
          readRecordsBin hn hc hv hl 0 1 2 P.length ⟨b.flatten ++ tl, false⟩ cbuf =
            .ok (P, Nn, C, V, L) := by
  induction P with
  | nil =>
    intro C Nn V L h1 h2 h3 h4 h5 h6 h7 h8
    have hNn : Nn = [] := by
      cases hn
      · exact h2 rfl
      · exact List.length_eq_zero.mp (h1 rfl)
    have hC : C = [] := by
      cases hc
      · exact h4 rfl
      · exact List.length_eq_zero.mp (h3 rfl)
    have hV : V = [] := by
      cases hv
      · exact h6 rfl
      · exact List.length_eq_zero.mp (h5 rfl)
    have hL : L = [] := by
      cases hl
      · exact h8 rfl
      · exact List.length_eq_zero.mp (h7 rfl)
    subst hNn; subst hC; subst hV; subst hL
    exact ⟨[], rfl, fun tl cbuf => rfl⟩
  | cons p P' ih =>
    intro C Nn V L h1 h2 h3 h4 h5 h6 h7 h8
    have hNne : hn = true → Nn ≠ [] := fun h hh => by
      have hx := h1 h; rw [hh] at hx; simp at hx
    have hCne : hc = true → C ≠ [] := fun h hh => by
      have hx := h3 h; rw [hh] at hx; simp at hx
    have hVne : hv = true → V ≠ [] := fun h hh => by
      have hx := h5 h; rw [hh] at hx; simp at hx
    have hLne : hl = true → L ≠ [] := fun h hh => by
      have hx := h7 h; rw [hh] at hx; simp at hx
    have t1 : hn = true → Nn.tail.length = P'.length := fun h => by
      have hx := h1 h
      cases Nn with
      | nil => simp at hx
      | cons a t => simpa using hx
    have t2 : hn = false → Nn.tail = [] := fun h => by rw [h2 h]; rfl
    have t3 : hc = true → C.tail.length = P'.length := fun h => by
      have hx := h3 h
      cases C with
      | nil => simp at hx
      | cons a t => simpa using hx
    have t4 : hc = false → C.tail = [] := fun h => by rw [h4 h]; rfl
    have t5 : hv = true → V.tail.length = P'.length := fun h => by
      have hx := h5 h
      cases V with
      | nil => simp at hx
      | cons a t => simpa using hx
    have t6 : hv = false → V.tail = [] := fun h => by rw [h6 h]; rfl
    have t7 : hl = true → L.tail.length = P'.length := fun h => by
      have hx := h7 h
      cases L with
      | nil => simp at hx
      | cons a t => simpa using hx
    have t8 : hl = false → L.tail = [] := fun h => by rw [h8 h]; rfl
    obtain ⟨b', hw', hr'⟩ := ih C.tail Nn.tail V.tail L.tail t1 t2 t3 t4 t5 t6 t7 t8
    refine ⟨(f32x3Bytes p ++
      ((if hn then f32x3Bytes (Nn.headD (F32.zero, F32.zero, F32.zero)) else []) ++
      ((if hc then [(C.headD (0, 0, 0)).1, (C.headD (0, 0, 0)).2.1,
          (C.headD (0, 0, 0)).2.2] else []) ++
      ((if hv then [V.headD 0] else []) ++ (if hl then [L.headD 0] else []))))) :: b',
      ?_, ?_⟩
    · show (List.range (P'.length + 1)).mapM
        (recordBytes hn hc hv hl ⟨p :: P', C, Nn, L, V⟩) = _
      rw [mapM_recordBytes_cons]
      rw [show tailPS ⟨p :: P', C, Nn, L, V⟩ =
        (⟨P', C.tail, Nn.tail, L.tail, V.tail⟩ : PointSet) from rfl]
      rw [recordBytes_zero hn hc hv hl p P' C Nn L V hNne hCne hVne hLne, hw']
      rfl
    · intro tl cbuf
      have hNnEq : (if hn then Nn.headD (F32.zero, F32.zero, F32.zero) :: Nn.tail
          else []) = Nn := by
        cases hn
        · simp [h2 rfl]
        · rw [if_pos rfl]
          exact headD_cons_tail Nn (F32.zero, F32.zero, F32.zero) (hNne rfl)
      have hCEq : (if hc then C.headD (0, 0, 0) :: C.tail else []) = C := by
        cases hc
        · simp [h4 rfl]
        · rw [if_pos rfl]
          exact headD_cons_tail C (0, 0, 0) (hCne rfl)
      have hVEq : (if hv then V.headD 0 :: V.tail else []) = V := by
        cases hv
        · simp [h6 rfl]
        · rw [if_pos rfl]
          exact headD_cons_tail V 0 (hVne rfl)
      have hLEq : (if hl then L.headD 0 :: L.tail else []) = L := by
        cases hl
        · simp [h8 rfl]
        · rw [if_pos rfl]
          exact headD_cons_tail L 0 (hLne rfl)
      show readRecordsBin hn hc hv hl 0 1 2 (P'.length + 1) _ cbuf = _
      conv_rhs => rw [← hNnEq, ← hCEq, ← hVEq, ← hLEq]
      simp only [List.flatten_cons, List.append_assoc]
      exact readRecordsBin_cons hn hc hv hl P'.length p
        (Nn.headD (F32.zero, F32.zero, F32.zero)) (C.headD (0, 0, 0))
        (V.headD 0) (L.headD 0) (b'.flatten ++ tl) cbuf P' Nn.tail C.tail
        V.tail L.tail
        (hr' tl (if hc then C.headD (0, 0, 0) else cbuf))

/-- Reading a file whose header was produced by fastPlySavePointSet
reduces to parsing the count from the element line and decoding the
records: the magic line, the format line, the comment skip, the three
coordinate property checks, the property scan (which recovers exactly
the channel flags used by the writer) and the colour-offset rebasing
(which yields offsets 0, 1, 2 and passes the contiguity check) all
evaluate by computation. -/
theorem read_saved_file (hn hc hv hl : Bool) (n : ℕ) (body : List ℕ) :
    fastPlyReadPointSet ⟨mkSaveHeader hn hc hv hl n, body⟩ =
      (getVertexCount ("element vertex ".toList ++ natToDec n)).bind
        (fun count =>
          (readRecordsBin hn hc hv hl 0 1 2 count ⟨body, false⟩ (0, 0, 0)).bind
            (fun r => .ok ⟨r.1, r.2.2.1, r.2.1, r.2.2.2.2, r.2.2.2.1⟩)) := by
  cases hn <;> cases hc <;> cases hv <;> cases hl <;> rfl

/-- Evaluation of fastPlySavePointSet once the record loop is known to
succeed. -/
theorem fastPlySavePointSet_eq (D : PointSet) (b : List (List ℕ))
    (hw : (List.range D.count).mapM
      (recordBytes D.hasNormals D.hasColors D.hasViews D.hasLabels D) = .ok b) :
    fastPlySavePointSet D =
      .ok ⟨mkSaveHeader D.hasNormals D.hasColors D.hasViews D.hasLabels D.count,
        b.flatten⟩ := by
  simp only [fastPlySavePointSet]
  rw [hw]
  rfl

/-- C1 (amended): the native binary codec round trip.  For every Dataset
satisfying the column-length invariant and holding at most INT_MAX
points, writing with fastPlySavePointSet succeeds and reading the
written file back with fastPlyReadPointSet returns the Dataset
unchanged, every column and every byte included. -/
theorem C1_roundtrip (D : PointSet) (hinv : D.invariant)
    (hn31 : D.points.length ≤ 2147483647) :
    (fastPlySavePointSet D).bind fastPlyReadPointSet = .ok D := by
  obtain ⟨P, C, Nn, L, V⟩ := D
  obtain ⟨i1, i2, i3, i4⟩ := hinv
  have r1 : (PointSet.hasNormals ⟨P, C, Nn, L, V⟩) = true → Nn.length = P.length := by
    intro h
    simp only [PointSet.hasNormals, decide_eq_true_eq] at h
    have hlen : 0 < Nn.length := h
    rcases i2 with h0 | hN
    · have h0x : Nn.length = 0 := h0
      omega
    · exact hN
  have r2 : (PointSet.hasNormals ⟨P, C, Nn, L, V⟩) = false → Nn = [] := by
    intro h
    simp only [PointSet.hasNormals, decide_eq_false_iff_not, not_lt,
      Nat.le_zero] at h
    have hlen : Nn.length = 0 := h
    exact List.length_eq_zero.mp hlen
  have r3 : (PointSet.hasColors ⟨P, C, Nn, L, V⟩) = true → C.length = P.length := by
    intro h
    simp only [PointSet.hasColors, decide_eq_true_eq] at h
    have hlen : 0 < C.length := h
    rcases i1 with h0 | hN
    · have h0x : C.length = 0 := h0
      omega
    · exact hN
  have r4 : (PointSet.hasColors ⟨P, C, Nn, L, V⟩) = false → C = [] := by
    intro h
    simp only [PointSet.hasColors, decide_eq_false_iff_not, not_lt,
      Nat.le_zero] at h
    have hlen : C.length = 0 := h
    exact List.length_eq_zero.mp hlen
  have r5 : (PointSet.hasViews ⟨P, C, Nn, L, V⟩) = true → V.length = P.length := by
    intro h
    simp only [PointSet.hasViews, decide_eq_true_eq] at h
    have hlen : 0 < V.length := h
    rcases i3 with h0 | hN
    · have h0x : V.length = 0 := h0
      omega
    · exact hN
  have r6 : (PointSet.hasViews ⟨P, C, Nn, L, V⟩) = false → V = [] := by
    intro h
    simp only [PointSet.hasViews, decide_eq_false_iff_not, not_lt,
      Nat.le_zero] at h
    have hlen : V.length = 0 := h
    exact List.length_eq_zero.mp hlen
  have r7 : (PointSet.hasLabels ⟨P, C, Nn, L, V⟩) = true → L.length = P.length := by
    intro h
    simp only [PointSet.hasLabels, decide_eq_true_eq] at h
    have hlen : 0 < L.length := h
    rcases i4 with h0 | hN
    · have h0x : L.length = 0 := h0
      omega
    · exact hN
  have r8 : (PointSet.hasLabels ⟨P, C, Nn, L, V⟩) = false → L = [] := by
    intro h
    simp only [PointSet.hasLabels, decide_eq_false_iff_not, not_lt,
      Nat.le_zero] at h
    have hlen : L.length = 0 := h
    exact List.length_eq_zero.mp hlen
  obtain ⟨b, hw, hr⟩ := write_read_records
    (PointSet.hasNormals ⟨P, C, Nn, L, V⟩) (PointSet.hasColors ⟨P, C, Nn, L, V⟩)
    (PointSet.hasViews ⟨P, C, Nn, L, V⟩) (PointSet.hasLabels ⟨P, C, Nn, L, V⟩)
    P C Nn V L r1 r2 r3 r4 r5 r6 r7 r8
  have hsave : fastPlySavePointSet ⟨P, C, Nn, L, V⟩ =
      .ok ⟨mkSaveHeader (PointSet.hasNormals ⟨P, C, Nn, L, V⟩)
        (PointSet.hasColors ⟨P, C, Nn, L, V⟩) (PointSet.hasViews ⟨P, C, Nn, L, V⟩)
        (PointSet.hasLabels ⟨P, C, Nn, L, V⟩) P.length, b.flatten⟩ :=
    fastPlySavePointSet_eq ⟨P, C, Nn, L, V⟩ b hw
  rw [hsave]
  simp only [ebind_ok]
  rw [read_saved_file, getVertexCount_saved P.length, if_pos hn31]
  simp only [ebind_ok]
  rw [← List.append_nil b.flatten, hr [] (0, 0, 0)]
  rfl

/-- C1 witness: the round trip evaluated on the concrete one-point
Dataset with every optional column populated, with both hypotheses
(the column-length invariant and the count bound) discharged by
computation. -/
theorem C1_roundtrip_witness :
    Dw.invariant ∧ Dw.points.length ≤ 2147483647 ∧
      (fastPlySavePointSet Dw).bind fastPlyReadPointSet = .ok Dw :=
  ⟨by decide, by decide, C1_roundtrip Dw (by decide) (by decide)⟩

/-- C1 counterexample: the round trip fails on a Dataset of 2^31 points.
fastPlySavePointSet writes the header line element vertex 2147483648,
and reading it back calls std::stoi on the count token, which throws
std::out_of_range for values beyond INT_MAX, so the load aborts instead
of returning the Dataset. -/
theorem C1_count_overflow :
    (fastPlySavePointSet bigD).bind fastPlyReadPointSet = .error .stoiRange := by
  obtain ⟨b, hw, _⟩ := write_read_records false false false false
    (List.replicate 2147483648 (F32.zero, F32.zero, F32.zero)) [] [] [] []
    (fun h => nomatch h) (fun _ => rfl) (fun h => nomatch h) (fun _ => rfl)
    (fun h => nomatch h) (fun _ => rfl) (fun h => nomatch h) (fun _ => rfl)
  have hsave := fastPlySavePointSet_eq bigD b hw
  rw [show bigD.count = 2147483648 from by
    rw [PointSet.count]
    exact List.length_replicate 2147483648 (F32.zero, F32.zero, F32.zero)] at hsave
  rw [show bigD.hasNormals = false from rfl, show bigD.hasColors = false from rfl,
    show bigD.hasViews = false from rfl, show bigD.hasLabels = false from rfl] at hsave
  rw [hsave]
  simp only [ebind_ok]
  rw [read_saved_file, getVertexCount_saved 2147483648, if_neg (by norm_num)]
  rfl

/-- C2 (amended): decoding a binary file that declares two records but
supplies the bytes of only one does not fail; the reads past the end of
the stream leave the zero-initialised record storage unchanged, and a
Dataset with the full declared record count is returned, its second
point all zero bytes. -/
theorem C2_truncated_zero_fill (b0 b1 b2 b3 b4 b5 b6 b7 b8 b9 b10 b11 : ℕ) :
    fastPlyReadPointSet (truncFile [b0, b1, b2, b3, b4, b5, b6, b7, b8, b9, b10, b11]) =
      .ok ⟨[(⟨b0, b1, b2, b3⟩, ⟨b4, b5, b6, b7⟩, ⟨b8, b9, b10, b11⟩),
        (F32.zero, F32.zero, F32.zero)], [], [], [], []⟩ := rfl

/-- C2 counterexample: a concrete truncated binary file (two declared
records, twelve body bytes) loads successfully and returns a Dataset
with a zero-filled second record, instead of failing with a
TruncatedRecord error - the reader never inspects the stream state. -/
theorem C2_counterexample :
    fastPlyReadPointSet (truncFile [1, 2, 3, 4, 5, 6, 7, 8, 9, 10, 11, 12]) =
      .ok ⟨[(⟨1, 2, 3, 4⟩, ⟨5, 6, 7, 8⟩, ⟨9, 10, 11, 12⟩),
        (F32.zero, F32.zero, F32.zero)], [], [], [], []⟩ := by decide

/-- C5 divergence: the contiguity check only tests that the rebased
colour offsets sum to 3.  A header with red at slot 1, no green
property (default slot 1) and blue at slot 4 rebases to offsets 0, 0, 3
- not the set 0, 1, 2 and not contiguous - yet the check passes: with
count 0 the file loads successfully (first conjunct), and with one
declared record the decoder then writes colors[i][3], an out-of-bounds
store into the three-byte colour array (second conjunct), instead of
failing with MalformedSchema at the header as the claim and the error
message of the check require. -/
theorem C5_sum_check_passes :
    fastPlyReadPointSet file5 = .ok ⟨[], [], [], [], []⟩ ∧
    fastPlyReadPointSet file5b = .error .oobWrite :=
  ⟨by decide, by decide⟩

/-- C6 divergence: getVertexCount only throws when BOTH the first token
differs from element AND the second differs from vertex (the source
combines the two comparisons with a logical AND where an OR was
intended), so the line element face 1 is accepted and its third token is
parsed as the record count; a whole file with that element line loads
successfully instead of failing with InvalidHeader. -/
theorem C6_element_face_accepted :
    getVertexCount "element face 1".toList = .ok 1 ∧
    fastPlyReadPointSet file6 =
      .ok ⟨[(⟨1, 2, 3, 4⟩, ⟨5, 6, 7, 8⟩, ⟨9, 10, 11, 12⟩)], [], [], [], []⟩ :=
  ⟨by decide, by decide⟩

/-- C3 (amended): for an empty Dataset the spacing estimator does not
fail and performs no sampling at all: the sample count min(0, 10000) is
zero, so the loop body (and with it every random draw and every
neighbour query, here the oracle) is never consulted - the result is
the same for every neighbour count and every oracle - and the returned
and cached value is max(0.01, 0 / 100) = 0.01. -/
theorem C3_empty_spacing (k : ℕ) (o : KnnOracle) :
    spacing 0 k o (-1) = (1 / 100, 1 / 100) := by
  unfold spacing
  rw [if_neg (by norm_num : ¬ ((-1 : ℚ) ≠ -1))]
  have hemp : spacingCompute 0 k o = 1 / 100 := by
    unfold spacingCompute
    simp only [Nat.zero_min, List.range_zero, List.foldl_nil, mostFrequent,
      Nat.cast_zero]
    rw [show ((0 : ℚ) / 100) = 0 by norm_num, max_eq_left (by norm_num)]
  rw [hemp]

/-- C3 counterexample: on the empty Dataset the spacing estimator
returns the floor value 0.01 (and caches it); it does not fail with an
EmptyDataset error - no error path exists in PointSet::spacing. -/
theorem C3_counterexample : spacing 0 3 oracle0 (-1) = (1 / 100, 1 / 100) := by
  unfold spacing
  rw [if_neg (by norm_num : ¬ ((-1 : ℚ) ≠ -1))]
  have hemp : spacingCompute 0 3 oracle0 = 1 / 100 := by
    unfold spacingCompute
    simp only [Nat.zero_min, List.range_zero, List.foldl_nil, mostFrequent,
      Nat.cast_zero]
    rw [show ((0 : ℚ) / 100) = 0 by norm_num, max_eq_left (by norm_num)]
  rw [hemp]

/-- C8: spacing is computed at most once per Dataset.  A first call with
the sentinel cache computes a value bounded below by 0.01 (hence never
equal to the sentinel -1) and stores it, and a later call with any other
neighbour count and any other oracle returns the cached value unchanged
without recomputation. -/
theorem C8_spacing_cached (np k k2 : ℕ) (o o2 : KnnOracle) :
    (1 / 100 : ℚ) ≤ (spacing np k o (-1)).1 ∧
    (spacing np k o (-1)).1 ≠ -1 ∧
    (spacing np k o (-1)).2 = (spacing np k o (-1)).1 ∧
    spacing np k2 o2 ((spacing np k o (-1)).2) =
      ((spacing np k o (-1)).2, (spacing np k o (-1)).2) := by
  have h1 : spacing np k o (-1) = (spacingCompute np k o, spacingCompute np k o) := by
    unfold spacing
    rw [if_neg (by norm_num : ¬ ((-1 : ℚ) ≠ -1))]
  have hge : (1 / 100 : ℚ) ≤ spacingCompute np k o := by
    unfold spacingCompute
    exact le_max_left _ _
  have hne : spacingCompute np k o ≠ -1 := by
    intro h
    rw [h] at hge
    norm_num at hge
  rw [h1]
  refine ⟨hge, hne, rfl, ?_⟩
  unfold spacing
  rw [if_pos hne]

/-- The per-sample expression inside spacingCompute coincides with
sampleStat whenever the oracle reports the square roots of the squared
neighbour distances, tying the rational estimator loop to the
real-valued statistic of lines 36-40. -/
theorem sampleStat_eq_loop_sum (k : ℕ) (dist : ℕ → ℚ) (sq : ℕ → ℝ)
    (h : ∀ j, ((dist j : ℚ) : ℝ) = Real.sqrt (sq j)) :
    ((((∑ j in Finset.Ico 1 k, dist j) / (k : ℚ)) : ℚ) : ℝ) = sampleStat k sq := by
  unfold sampleStat
  push_cast
  rw [Finset.sum_congr rfl (fun j _ => h j)]

theorem sampleStat_eq_loop_sum_witness :
    ((((∑ j in Finset.Ico 1 3, (fun (_ : ℕ) => (1 : ℚ)) j) / (3 : ℚ)) : ℚ) : ℝ) =
      sampleStat 3 (fun (_ : ℕ) => (1 : ℝ)) :=
  sampleStat_eq_loop_sum 3 (fun _ => 1) (fun _ => 1)
    (fun j => by simp [Real.sqrt_one])

/-- C4 divergence: the per-sample statistic of the loop (sampleStat, the
sum of the square roots of the squared neighbour distances at ranks 1 to
k - 1, divided by k) is not the root-mean-square of those distances
(specRmsStat).  At k = 3 with both squared distances equal to 1 the loop
statistic is 2/3 while the root-mean-square is 1. -/
theorem C4_not_rms :
    sampleStat 3 (fun _ => 1) = 2 / 3 ∧ specRmsStat 3 (fun _ => 1) = 1 ∧
      sampleStat 3 (fun _ => 1) ≠ specRmsStat 3 (fun _ => 1) := by
  have hico : Finset.Ico 1 3 = ({1, 2} : Finset ℕ) := by decide
  have h1 : sampleStat 3 (fun _ => 1) = 2 / 3 := by
    unfold sampleStat
    rw [hico]
    rw [Finset.sum_insert (by decide), Finset.sum_singleton]
    rw [Real.sqrt_one]
    norm_num
  have h2 : specRmsStat 3 (fun _ => 1) = 1 := by
    unfold specRmsStat
    rw [hico]
    rw [Finset.sum_insert (by decide), Finset.sum_singleton]
    norm_num
  refine ⟨h1, h2, ?_⟩
  rw [h1, h2]
  norm_num

/-! Infrastructure for the label-remapping loop. -/

theorem get?_append_len {α : Type} (done : List α) (x : α) (rest : List α) :
    (done ++ x :: rest).get? done.length = some x := by
  induction done with
  | nil => rfl
  | cons a t ih => simpa using ih

theorem set_append_len {α : Type} (done : List α) (x v : α) (rest : List α) :
    (done ++ x :: rest).set done.length v = done ++ v :: rest := by
  induction done with
  | nil => rfl
  | cons a t ih => simp [List.set, ih]

/-- The in-place update loop of the label remapper: folding the
read-transform-store step over the index range rewrites the still
untouched part of the list with the per-label transform. -/
theorem remap_loop (g : ℕ → ℕ) :
    ∀ (todo done : List ℕ),
      (List.range' done.length todo.length).foldlM (fun (l : List ℕ) idx => do
        let v ← vecGet l idx
        pure (l.set idx (g v))) (done ++ todo) = .ok (done ++ todo.map g) := by
  intro todo
  induction todo with
  | nil => intro done; simp [except_pure]
  | cons x rest ih =>
    intro done
    rw [show List.range' done.length (x :: rest).length =
      done.length :: List.range' (done.length + 1) rest.length from rfl]
    rw [List.foldlM_cons]
    rw [show vecGet (done ++ x :: rest) done.length = .ok x from by
      rw [vecGet, get?_append_len]]
    simp only [except_bind_ok, except_pure]
    rw [set_append_len]
    have h := ih (done ++ [g x])
    simp only [List.length_append, List.length_singleton, List.append_assoc,
      List.singleton_append] at h
    simpa using h

/-- C7: label remapping with a non-empty explicit mapping.  Every label
of the loaded Dataset is replaced: a label with an entry in the mapping
becomes the training code of its mapped semantic name, any other label
becomes the training code of the reserved name unassigned, each stored
through the uint8_t narrowing. -/
theorem C7_label_remap (ms : List (Int × String)) (tc : String → Int)
    (a2t : Int → Int) (D : PointSet) (hms : ms ≠ [])
    (hlen : D.labels.length = D.points.length) :
    remapLabels ms tc a2t D =
      .ok { D with labels := D.labels.map (fun (l : ℕ) =>
        u8OfInt (match ms.lookup ((l : ℕ) : Int) with
          | some nm => tc nm
          | none => tc "unassigned")) } := by
  cases hcase : D.hasLabels with
  | false =>
    obtain ⟨P, C, Nn, L, V⟩ := D
    have hemp : L = [] := by
      have h := hcase
      simp only [PointSet.hasLabels, decide_eq_false_iff_not, not_lt,
        Nat.le_zero] at h
      have h2 : L.length = 0 := h
      exact List.length_eq_zero.mp h2
    subst hemp
    rfl
  | true =>
    set g : ℕ → ℕ := fun l =>
      u8OfInt (match ms.lookup (l : Int) with
        | some nm => tc nm
        | none => tc "unassigned") with hg
    have hloop : (List.range D.count).foldlM (fun (ls : List ℕ) idx => do
        let l ← vecGet ls idx
        let label : Int :=
          match ms.lookup (l : Int) with
          | some nm => tc nm
          | none => tc "unassigned"
        pure (ls.set idx (u8OfInt label))) D.labels = .ok (D.labels.map g) := by
      have h0 := remap_loop g D.labels []
      simp only [List.nil_append, List.length_nil] at h0
      rw [← List.range_eq_range'] at h0
      rw [show D.count = D.labels.length from by rw [PointSet.count, hlen]]
      exact h0
    unfold remapLabels
    rw [hcase]
    rw [if_pos (rfl : (true : Bool) = true), if_pos hms, hloop]
    rfl

/-- C7 witness: the specification example.  Mapping 5 to ground with
training codes ground = 2 and unassigned = 0 turns the labels 5, 7, 5
into 2, 0, 2. -/
theorem C7_label_remap_witness :
    ms7 ≠ [] ∧ D7.labels.length = D7.points.length ∧
      remapLabels ms7 tc7 a2t7 D7 = .ok { D7 with labels := [2, 0, 2] } := by
  refine ⟨by decide, by decide, ?_⟩
  exact (C7_label_remap ms7 tc7 a2t7 D7 (by decide) (by decide)).trans (by decide)

/-- C9 (amended): appendPoint pushes one entry onto the points and the
colors columns only.  It preserves the column-length invariant exactly
when the derived Dataset has empty normals, views and labels columns
(and a colors column in step with its points column, and a source index
within both source columns). -/
theorem C9_appendPoint (dst src : PointSet) (idx : ℕ)
    (hp : idx < src.points.length) (hc : idx < src.colors.length)
    (hn : dst.normals = []) (hv : dst.views = []) (hl : dst.labels = [])
    (hcl : dst.colors.length = dst.points.length) :
    ∃ D', appendPoint dst src idx = .ok D' ∧ D'.invariant ∧
      D'.points.length = dst.points.length + 1 := by
  obtain ⟨p, hpp⟩ : ∃ p, src.points.get? idx = some p :=
    ⟨_, List.get?_eq_get hp⟩
  obtain ⟨c, hcc⟩ : ∃ c, src.colors.get? idx = some c :=
    ⟨_, List.get?_eq_get hc⟩
  refine ⟨{ dst with points := dst.points ++ [p], colors := dst.colors ++ [c] },
    ?_, ?_, by simp⟩
  · unfold appendPoint
    rw [vecGet, hpp, vecGet, hcc]
    rfl
  · refine ⟨Or.inr (by simp [hcl]), Or.inl (by simp [hn]),
      Or.inl (by simp [hv]), Or.inl (by simp [hl])⟩

/-- C9 witness: appending the single source point to an empty derived
Dataset yields a one-point Dataset satisfying the invariant. -/
theorem C9_appendPoint_witness :
    ∃ D', appendPoint ⟨[], [], [], [], []⟩ src9 0 = .ok D' ∧ D'.invariant ∧
      D'.points.length = (⟨[], [], [], [], []⟩ : PointSet).points.length + 1 :=
  C9_appendPoint ⟨[], [], [], [], []⟩ src9 0 (by decide) (by decide) rfl rfl rfl rfl

/-- C9 counterexample: the derived Dataset D9 satisfies the invariant
and has a populated normals column; appendPoint grows points and colors
but not normals, so after the call the normals column is non-empty yet
no longer matches the points length - the claimed preservation fails. -/
theorem C9_counterexample :
    D9.invariant ∧ ∃ D', appendPoint D9 src9 0 = .ok D' ∧ D'.normals ≠ [] ∧
      D'.normals.length ≠ D'.points.length := by
  refine ⟨by decide, ⟨_, rfl, by decide, by decide⟩⟩

/-- C10 divergence: savePointSet runs its pre-dispatch loop reading
pSet.labels[idx] for every idx below pSet.count() before looking at the
file extension; on a Dataset with points but no labels the very first
read, labels[0], is out of bounds, so under the total embedding the
operation hits the out-of-bounds branch instead of performing only
in-bounds accesses. -/
theorem C10_saveLabels_oob (D : PointSet) (b : Bool) (hlab : D.labels = [])
    (hpts : D.points ≠ []) : savePointSet D b = .error .oobRead := by
  obtain ⟨q, Q, hq⟩ := exists_cons_of_ne_nil D.points hpts
  unfold savePointSet
  rw [show D.count = Q.length + 1 from by rw [PointSet.count, hq]; rfl]
  rw [List.range_succ_eq_map, List.mapM_cons]
  rw [show vecGet D.labels 0 = (.error .oobRead : Except Err ℕ) from by
    rw [hlab]; rfl]
  rfl

/-- C10 witness: the out-of-bounds read evaluated on a concrete
one-point, label-free Dataset. -/
theorem C10_saveLabels_oob_witness :
    D10.labels = [] ∧ D10.points ≠ [] ∧ savePointSet D10 true = .error .oobRead :=
  ⟨rfl, by decide, C10_saveLabels_oob D10 true rfl (by decide)⟩

end OPC
